import Mathlib

/-!
Verification development for the template-resolution and
command-execution-permission engine of this repository, together with the
trusted-folder resolution code of packages/cli/src/config/trustedFolders.ts.

The shell utilities (shell-utils.ts) and the template processor
(shellProcessor.ts) are exercised by the test files shipped in the
repository but their implementation files are not part of the source
snapshot, so those operations are modelled from the specification
(spec.md sections 4.2 to 4.6) and checked against the behaviour pinned
down by the shipped test files.  The trusted-folder logic is translated
directly from its source.
-/

/-! ## Character and string helpers

Shallow embeddings of the handful of JavaScript string primitives the
code relies on, written as structural recursions over character lists so
that every definition evaluates inside the kernel. -/

/-- The single-quote character, written via its code point. -/
def squoteChar : Char := Char.ofNat 39

/-- The backtick character, written via its code point. -/
def backtickChar : Char := Char.ofNat 96

/-- Boolean prefix test on character lists, like JavaScript startsWith. -/
def leadsWith : List Char → List Char → Bool
  | [], _ => true
  | _ :: _, [] => false
  | p :: ps, c :: cs => p = c && leadsWith ps cs

/-- Boolean suffix test on strings, like JavaScript endsWith. -/
def trailsWith (pat s : String) : Bool :=
  leadsWith pat.data.reverse s.data.reverse

/-- Whitespace trim at both ends, like String.prototype.trim. -/
def trimChars (s : String) : String :=
  ⟨((s.data.dropWhile Char.isWhitespace).reverse.dropWhile Char.isWhitespace).reverse⟩

/-- Keep-first deduplication, like spreading a JavaScript Set built from a
list.  The accumulator holds the values already emitted. -/
def dedupAux : List String → List String → List String
  | [], _ => []
  | x :: xs, seen => if x ∈ seen then dedupAux xs seen else x :: dedupAux xs (x :: seen)

/-- Deduplicate a list keeping the first occurrence of each value. -/
def dedupKeepFirst (l : List String) : List String := dedupAux l []

/-- Concatenation of the images of a list under a list-valued function. -/
def collectList (f : String → List String) : List String → List String
  | [] => []
  | c :: cs => f c ++ collectList f cs

/-! ## Command tokenizer and root extractor

Modelled from the spec: the implementation of getCommandRoots in
shell-utils.ts is not in the source snapshot; section 4.3 of the spec
describes it as splitting on top-level chain operators outside
single/double-quoted regions and taking each segment's first
whitespace-delimited token with any directory prefix stripped. -/

/-- Modelled from the spec: quote-aware split of a command line at the
top-level chain operators.  The characters of every such operator are the
semicolon, the pipe and the ampersand, so cutting at each occurrence of
one of those characters outside quotes and later discarding empty
segments realises the split on the five operators of section 4.3. -/
def splitChainAux : List Char → Bool → Bool → List Char → List String
  | [], _, _, cur => [⟨cur.reverse⟩]
  | c :: rest, inS, inD, cur =>
    if c = squoteChar ∧ inD = false then splitChainAux rest (!inS) inD (c :: cur)
    else if c = '"' ∧ inS = false then splitChainAux rest inS (!inD) (c :: cur)
    else if (c = ';' ∨ c = '|' ∨ c = '&') ∧ inS = false ∧ inD = false then
      ⟨cur.reverse⟩ :: splitChainAux rest inS inD []
    else splitChainAux rest inS inD (c :: cur)

/-- Modelled from the spec: the trimmed, non-empty top-level chain
segments of a command, each retaining its full text. -/
def chainSegments (command : String) : List String :=
  ((splitChainAux command.data false false []).map trimChars).filter (fun s => s ≠ "")

/-- First whitespace-delimited token of a segment. -/
def firstToken (seg : String) : String :=
  ⟨(trimChars seg).data.takeWhile (fun c => ¬ c.isWhitespace)⟩

/-- Strip any directory prefix, keeping the text after the last slash or
backslash. -/
def baseName (tok : String) : String :=
  ⟨(tok.data.reverse.takeWhile (fun c => c ≠ '/' ∧ c ≠ '\\')).reverse⟩

/-- Root command of a chain segment: first token, path stripped. -/
def rootOf (seg : String) : String := baseName (firstToken seg)

/-- Modelled from the spec: getCommandRoots of shell-utils.ts (section
4.3 of the spec).  Splits on top-level chain operators, never inside
quoted regions, and maps every non-empty segment to its root. -/
def getCommandRoots (command : String) : List String :=
  (chainSegments command).map rootOf

/-! ## Permission evaluator

Modelled from the spec: checkCommandPermissions of shell-utils.ts is not
in the source snapshot; section 4.4 of the spec describes the evaluation
steps, and the shipped test file pins the exact reason strings. -/

/-- Policy snapshot: the allow entries (getCoreTools) and block entries
(getExcludeTools) relevant to the shell tool. -/
structure CommandPolicy where
  coreTools : List String
  excludeTools : List String
deriving DecidableEq, Repr

/-- Aggregate verdict of the permission evaluator. -/
structure PermissionVerdict where
  allAllowed : Bool
  disallowedCommands : List String
  blockReason : Option String
  isHardDenial : Bool
deriving DecidableEq, Repr

/-- Names under which the shell tool appears in policy entries. -/
def SHELL_TOOL_NAMES : List String := ["ShellTool", "run_shell_command"]

/-- Extract the command pattern of a qualified entry such as
ShellTool(ls), for one candidate tool name. -/
def stripEntry (toolName e : String) : Option String :=
  let pre := (toolName ++ "(").data
  if leadsWith pre e.data ∧ e.data.getLast? = some ')' then
    some ⟨(e.data.drop pre.length).dropLast⟩
  else none

/-- Whether the entry list holds a bare (wildcard) shell-tool entry. -/
def isWildcard (tools : List String) : Bool :=
  SHELL_TOOL_NAMES.any (fun n => tools.contains n)

/-- The command patterns of all qualified shell-tool entries in a list. -/
def entryPatterns (tools : List String) : List String :=
  tools.filterMap fun e => SHELL_TOOL_NAMES.findSome? fun n => stripEntry n e

/-- Modelled from the spec: a policy entry pattern matches a segment at
either granularity of section 4.4 step 2, the full text or the root. -/
def matchesEntry (pat seg : String) : Bool :=
  pat == seg || pat == rootOf seg

/-- Whether some qualified block entry matches the segment. -/
def hasBlockEntry (policy : CommandPolicy) (seg : String) : Bool :=
  (entryPatterns policy.excludeTools).any (fun p => matchesEntry p seg)

/-- Blocked test of section 4.4 step 3: globally disabled tool or a
matching block entry. -/
def segBlocked (policy : CommandPolicy) (seg : String) : Bool :=
  isWildcard policy.excludeTools || hasBlockEntry policy seg

/-- One segment's failure, retaining its severity and reason. -/
inductive SegFailure where
  | blocked (reason : String)
  | notAllowed (reason : String)
deriving DecidableEq, Repr

/-- The reason text of a failure. -/
def SegFailure.reason : SegFailure → String
  | .blocked r => r
  | .notAllowed r => r

/-- Blocklist failures are hard denials; missing allowlist entries are
soft. -/
def SegFailure.isHard : SegFailure → Bool
  | .blocked _ => true
  | .notAllowed _ => false

/-- Modelled from the spec: command-substitution scan of section 4.4
step 1.  Outside single-quoted regions, a dollar or less-than sign
immediately followed by an opening parenthesis, or a backtick, is a
substitution construct. -/
def hasCmdSub : List Char → Bool → Bool
  | [], _ => false
  | c :: rest, inS =>
    if c = squoteChar then hasCmdSub rest (!inS)
    else if inS then hasCmdSub rest inS
    else if c = backtickChar then true
    else
      match rest with
      | r1 :: _ => if (c = '$' ∨ c = '<') ∧ r1 = '(' then true else hasCmdSub rest inS
      | [] => false

/-- Whether the command holds a substitution construct outside
single-quoted regions. -/
def hasCommandSubstitution (command : String) : Bool :=
  hasCmdSub command.data false

/-- Modelled from the spec: evaluation of one chain segment under the
policy, per section 4.4 steps 3 and 4.  Blocklist checks come first; the
mode then depends on the presence of the session allowlist. -/
def segFailure (policy : CommandPolicy) (session : Option (List String))
    (seg : String) : Option SegFailure :=
  if isWildcard policy.excludeTools = true then
    some (.blocked "Shell tool is globally disabled in configuration")
  else if hasBlockEntry policy seg = true then
    some (.blocked ("Command \x27" ++ seg ++ "\x27 is blocked by configuration"))
  else
    match session with
    | none =>
      if isWildcard policy.coreTools = true ∨ entryPatterns policy.coreTools = [] ∨
          (entryPatterns policy.coreTools).any (fun p => matchesEntry p seg) = true then
        none
      else some (.notAllowed "Command(s) not in the allowed commands list.")
    | some sal =>
      if isWildcard policy.coreTools = true ∨
          (entryPatterns policy.coreTools).any (fun p => matchesEntry p seg) = true ∨
          seg ∈ sal then
        none
      else
        some (.notAllowed
          ("Command \x27" ++ seg ++ "\x27 is not on the global or session allowlist."))

/-- Every failing segment of the command, in order, paired with its
failure. -/
def commandFailures (command : String) (policy : CommandPolicy)
    (session : Option (List String)) : List (String × SegFailure) :=
  (chainSegments command).filterMap fun seg =>
    (segFailure policy session seg).map fun f => (seg, f)

/-- Modelled from the spec: checkCommandPermissions of shell-utils.ts
(section 4.4 of the spec).  A substitution construct is an immediate
hard denial for the whole command; otherwise every chain segment is
evaluated and the failures aggregated per step 5: disallowedCommands in
original order deduplicated, blockReason from the first failure,
isHardDenial when any failure is a blocklist one. -/
def checkCommandPermissions (command : String) (policy : CommandPolicy)
    (session : Option (List String)) : PermissionVerdict :=
  if hasCommandSubstitution command = true then
    { allAllowed := false
      disallowedCommands := [command]
      blockReason :=
        some "Command substitution using $(), <(), or backticks is not allowed for security reasons"
      isHardDenial := true }
  else
    match commandFailures command policy session with
    | [] =>
      { allAllowed := true, disallowedCommands := [], blockReason := none,
        isHardDenial := false }
    | f0 :: rest =>
      { allAllowed := false
        disallowedCommands := dedupKeepFirst ((f0 :: rest).map Prod.fst)
        blockReason := some f0.2.reason
        isHardDenial := (f0 :: rest).any fun q => q.2.isHard }

/-! ## Argument escaper

Modelled from the spec: escapeShellArg of shell-utils.ts (section 4.2 of
the spec).  The POSIX quoting routine (the shell-quote library) is an
external collaborator, so it enters the model as a function parameter;
the second component of the result counts its invocations, the
test-observable effect. -/

/-- Host platform kind as the escaper distinguishes it. -/
inductive OsKind where
  | linux
  | darwin
  | win32
deriving DecidableEq, Repr

/-- Double every double-quote character, the cmd.exe discipline. -/
def doubleQuotesList : List Char → List Char
  | [] => []
  | c :: rest =>
    if c = '"' then '"' :: '"' :: doubleQuotesList rest
    else c :: doubleQuotesList rest

/-- Windows-style escape: wrap in double quotes, doubling embedded
double quotes. -/
def winEscape (s : String) : String :=
  "\"" ++ (⟨doubleQuotesList s.data⟩ : String) ++ "\""

/-- Modelled from the spec: escapeShellArg.  Empty input short-circuits
without touching the quoting routine; the Windows-like path wraps and
doubles quotes itself; the POSIX path delegates to the quoting routine,
counting the call. -/
def escapeShellArg (arg : String) (p : OsKind) (quoteFn : String → String) :
    String × Nat :=
  if arg = "" then ("", 0)
  else
    match p with
    | .win32 => (winEscape arg, 0)
    | _ => (quoteFn arg, 1)

/-! ## Template processor

Modelled from the spec: the ShellProcessor of shellProcessor.ts is not
in the source snapshot; section 4.6 of the spec describes process, and
the shipped test file pins the substituted text and the raised
conditions.  The Execution Gateway and the Argument Escaper enter the
model as function parameters; the outcome records the commands actually
handed to the gateway and the number of escaper invocations, the two
test-observable effects. -/

/-- A parsed piece of a template: literal text or the raw content of one
shell-injection span. -/
inductive TPart where
  | text (s : String)
  | span (s : String)
deriving DecidableEq, Repr

/-- State of the template scanner: outside any span, or inside one at
the given brace depth with the given quote states. -/
inductive ScanMode where
  | outside
  | inside (depth : Nat) (inS : Bool) (inD : Bool)
deriving DecidableEq, Repr

/-- Modelled from the spec: the left-to-right template scan of section
4.6.  An exclamation mark followed by an opening brace starts a span at
depth one; braces inside quotes do not affect the depth; reaching the
end of input inside a span is the unclosed-injection parse error,
signalled by none. -/
def scanAux : List Char → ScanMode → List Char → List TPart → Option (List TPart)
  | [], .outside, cur, acc => some ((TPart.text ⟨cur.reverse⟩ :: acc).reverse)
  | [], .inside _ _ _, _, _ => none
  | '!' :: '{' :: rest, .outside, cur, acc =>
    scanAux rest (.inside 1 false false) [] (TPart.text ⟨cur.reverse⟩ :: acc)
  | c :: rest, .outside, cur, acc => scanAux rest .outside (c :: cur) acc
  | c :: rest, .inside depth inS inD, cur, acc =>
    if c = squoteChar ∧ inD = false then
      scanAux rest (.inside depth (!inS) inD) (c :: cur) acc
    else if c = '"' ∧ inS = false then
      scanAux rest (.inside depth inS (!inD)) (c :: cur) acc
    else if c = '{' ∧ inS = false ∧ inD = false then
      scanAux rest (.inside (depth + 1) inS inD) (c :: cur) acc
    else if c = '}' ∧ inS = false ∧ inD = false then
      if depth = 1 then scanAux rest .outside [] (TPart.span ⟨cur.reverse⟩ :: acc)
      else scanAux rest (.inside (depth - 1) inS inD) (c :: cur) acc
    else scanAux rest (.inside depth inS inD) (c :: cur) acc

/-- Whether the template holds the injection trigger, an exclamation
mark directly followed by an opening brace. -/
def containsTrigger : List Char → Bool
  | [] => false
  | '!' :: '{' :: _ => true
  | _ :: rest => containsTrigger rest

/-- Replace every occurrence of the argument placeholder by the given
replacement, over character lists. -/
def replaceArgsList (repl : List Char) : List Char → List Char
  | '{' :: '{' :: 'a' :: 'r' :: 'g' :: 's' :: '}' :: '}' :: rest =>
    repl ++ replaceArgsList repl rest
  | c :: rest => c :: replaceArgsList repl rest
  | [] => []

/-- Replace every argument placeholder of s by repl. -/
def replaceArgs (s repl : String) : String :=
  ⟨replaceArgsList repl.data s.data⟩

/-- Structured result of one Execution Gateway call. -/
structure ExecutionResult where
  output : String
  exitCode : Option Int
  signal : Option String
  error : Bool
  aborted : Bool
deriving DecidableEq, Repr

/-- Modelled from the spec: the replacement text composed for one
executed span per section 4.6: output plus the exit-code suffix when the
exit code is non-zero, else the signal suffix, else the aborted suffix
when a spawn error coincided with an abort; none marks the fatal
spawn-error-without-abort case. -/
def composeResult (r : ExecutionResult) : Option String :=
  if r.exitCode.getD 0 ≠ 0 then
    some (r.output ++ "\n[Shell command exited with code " ++
      toString (r.exitCode.getD 0) ++ "]")
  else
    match r.signal with
    | some s => some (r.output ++ "\n[Shell command terminated by signal " ++ s ++ "]")
    | none =>
      if r.error then
        if r.aborted then some (r.output ++ "\n[Shell command aborted]")
        else none
      else some r.output

/-- The fatal conditions a process call can raise, per section 7 of the
spec. -/
inductive ProcessError where
  | missingConfig
  | parseError
  | hardDenial (command : String) (reason : Option String)
  | confirmationRequired (commandsToConfirm : List String)
  | executionFailure (command : String)
deriving DecidableEq, Repr

/-- Result of a process call: the assembled text or a fatal condition. -/
inductive PResult where
  | ok (text : String)
  | err (e : ProcessError)
deriving DecidableEq, Repr

/-- Observable outcome of one process call: its result, the commands
handed to the Execution Gateway in order, and the number of Argument
Escaper invocations. -/
structure ProcessOutcome where
  result : PResult
  executed : List String
  escapeCalls : Nat
deriving DecidableEq, Repr

/-- Substitute the arguments into the parsed parts: raw outside spans,
escaped inside spans, the span content being trimmed first. -/
def resolveParts (parts : List TPart) (raw escaped : String) : List TPart :=
  parts.map fun p =>
    match p with
    | .text s => .text (replaceArgs s raw)
    | .span s => .span (replaceArgs (trimChars s) escaped)

/-- The non-empty resolved span commands of the template, in order. -/
def partCommands (parts : List TPart) : List String :=
  parts.filterMap fun p =>
    match p with
    | .span s => if s = "" then none else some s
    | .text _ => none

/-- First command whose verdict is a hard denial, with its reason. -/
def firstHardDenial (cmds : List String) (policy : CommandPolicy)
    (session : List String) : Option (String × Option String) :=
  cmds.findSome? fun c =>
    if (checkCommandPermissions c policy (some session)).allAllowed = false ∧
        (checkCommandPermissions c policy (some session)).isHardDenial = true then
      some (c, (checkCommandPermissions c policy (some session)).blockReason)
    else none

/-- Union, in order and deduplicated, of the disallowed commands of
every failing span. -/
def softDisallowed (cmds : List String) (policy : CommandPolicy)
    (session : List String) : List String :=
  dedupKeepFirst (collectList
    (fun c =>
      if (checkCommandPermissions c policy (some session)).allAllowed = true then []
      else (checkCommandPermissions c policy (some session)).disallowedCommands)
    cmds)

/-- Execute the resolved parts strictly in order, assembling the output
text and recording every gateway call; an empty span resolves to the
empty string without any call; a spawn error without abort aborts the
whole run. -/
def runPartsAux (exec : String → ExecutionResult) :
    List TPart → String → List String → PResult × List String
  | [], accText, execd => (.ok accText, execd.reverse)
  | TPart.text s :: rest, accText, execd => runPartsAux exec rest (accText ++ s) execd
  | TPart.span s :: rest, accText, execd =>
    if s = "" then runPartsAux exec rest accText execd
    else
      match composeResult (exec s) with
      | none => (.err (.executionFailure s), (s :: execd).reverse)
      | some repl => runPartsAux exec rest (accText ++ repl) (s :: execd)

/-- Validate-then-execute stage of process: the first hard denial fails
immediately; otherwise the aggregated soft denials raise one
confirmation condition; only when no span fails are the spans executed
in template order. -/
def processValidated (policy : CommandPolicy) (session : List String)
    (resolved : List TPart) (exec : String → ExecutionResult) : ProcessOutcome :=
  match firstHardDenial (partCommands resolved) policy session with
  | some cr => ⟨.err (.hardDenial cr.1 cr.2), [], 1⟩
  | none =>
    if softDisallowed (partCommands resolved) policy session = [] then
      ⟨(runPartsAux exec resolved "" []).1, (runPartsAux exec resolved "" []).2, 1⟩
    else
      ⟨.err (.confirmationRequired (softDisallowed (partCommands resolved) policy session)),
        [], 1⟩

/-- Modelled from the spec: process of shellProcessor.ts (section 4.6 of
the spec).  Fast path without the injection trigger: raw substitution,
no escaper call.  General path: config check, escaped arguments computed
once, full parse, then the validate-then-execute stage. -/
def process (prompt args : String) (hasConfig : Bool) (policy : CommandPolicy)
    (session : List String) (escapeFn : String → String)
    (exec : String → ExecutionResult) : ProcessOutcome :=
  if containsTrigger prompt.data = true then
    if hasConfig then
      match scanAux prompt.data .outside [] [] with
      | none => ⟨.err .parseError, [], 1⟩
      | some parts =>
        processValidated policy session (resolveParts parts args (escapeFn args)) exec
    else ⟨.err .missingConfig, [], 0⟩
  else ⟨.ok (replaceArgs prompt args), [], 0⟩

/-! ## Trusted folders

Translated from packages/cli/src/config/trustedFolders.ts.  Paths are
POSIX strings; path.normalize, path.dirname and path.sep are embedded as
the Node posix algorithms. -/

/-- Trust level of one configured path. -/
inductive TrustLevel where
  | TRUST_FOLDER
  | TRUST_PARENT
  | DO_NOT_TRUST
deriving DecidableEq, Repr

/-- One rule of the merged trusted-folder configuration. -/
structure TrustRule where
  path : String
  trustLevel : TrustLevel
deriving DecidableEq, Repr

/-- Resolve the dot and dot-dot segments of a split path, like the
normalizeString step of Node path.posix.normalize; allowAbove keeps
leading dot-dot segments of relative paths. -/
def normSegs : List String → List String → Bool → List String
  | [], acc, _ => acc.reverse
  | s :: rest, acc, allowAbove =>
    if s = "" ∨ s = "." then normSegs rest acc allowAbove
    else if s = ".." then
      match acc with
      | a :: acc2 =>
        if a = ".." then normSegs rest (s :: a :: acc2) allowAbove
        else normSegs rest acc2 allowAbove
      | [] => if allowAbove then normSegs rest [s] allowAbove else normSegs rest [] allowAbove
    else normSegs rest (s :: acc) allowAbove

/-- Split a character list at every occurrence of the given character. -/
def splitOnChar (c : Char) : List Char → List Char → List String
  | [], cur => [⟨cur.reverse⟩]
  | d :: rest, cur =>
    if d = c then ⟨cur.reverse⟩ :: splitOnChar c rest []
    else splitOnChar c rest (d :: cur)

/-- Join strings with a separator. -/
def joinWith (sep : String) : List String → String
  | [] => ""
  | [x] => x
  | x :: xs => x ++ sep ++ joinWith sep xs

/-- Node path.posix.normalize: collapse empty and dot segments, resolve
dot-dot, preserve absoluteness and a trailing slash. -/
def posixNormalize (p : String) : String :=
  if p = "" then "."
  else
    let isAbs := leadsWith ['/'] p.data
    let trailing := trailsWith "/" p
    let segs := normSegs (splitOnChar '/' p.data []) [] (!isAbs)
    let core := joinWith "/" segs
    if core = "" then
      if isAbs = true then "/" else if trailing = true then "./" else "."
    else
      let core2 := if trailing = true then core ++ "/" else core
      if isAbs = true then "/" ++ core2 else core2

/-- Search loop of Node path.posix.dirname: walking the characters from
the end (the reversed list), skip the trailing separators, then the last
component; the index of the separator reached, when one is found at a
positive index, ends the directory prefix. -/
def dirnameEnd : List Char → Nat → Bool → Option Nat
  | [], _, _ => none
  | c :: rest, idx, matched =>
    if idx = 0 then none
    else if c = '/' then
      if matched then dirnameEnd rest (idx - 1) matched else some idx
    else dirnameEnd rest (idx - 1) false

/-- Node path.posix.dirname. -/
def posixDirname (p : String) : String :=
  let cs := p.data
  if cs.isEmpty then "."
  else
    let hasRoot := cs.head? = some '/'
    match dirnameEnd cs.reverse (cs.length - 1) true with
    | none => if hasRoot then "/" else "."
    | some e => if hasRoot ∧ e = 1 then "//" else ⟨cs.take e⟩

/-- The trusted paths collected by isCurrentDirectoryTrusted: the path
of every TRUST_FOLDER rule and the parent directory of every
TRUST_PARENT rule, in rule order. -/
def trustedPathsOf (rules : List TrustRule) : List String :=
  rules.filterMap fun r =>
    match r.trustLevel with
    | .TRUST_FOLDER => some r.path
    | .TRUST_PARENT => some (posixDirname r.path)
    | .DO_NOT_TRUST => none

/-- The untrusted paths: the path of every DO_NOT_TRUST rule, in rule
order. -/
def untrustedPathsOf (rules : List TrustRule) : List String :=
  rules.filterMap fun r =>
    match r.trustLevel with
    | .DO_NOT_TRUST => some r.path
    | _ => none

/-- Append the path separator unless already present, as the source does
before the startsWith test. -/
def withSep (s : String) : String :=
  if trailsWith "/" s = true then s else s ++ "/"

/-- The per-trusted-path test of the source: the normalized working
directory equals the normalized trusted path or starts with it followed
by the separator. -/
def trustedMatch (normalizedCwd tp : String) : Bool :=
  normalizedCwd == posixNormalize tp ||
    leadsWith (withSep (posixNormalize tp)).data normalizedCwd.data

/-- isCurrentDirectoryTrusted of trustedFolders.ts, as a function of the
loaded rules and the working directory: every trusted path is tested
first (equality or prefix-with-separator), then the untrusted paths
(equality only); no match yields undefined, embedded as none. -/
def isCurrentDirectoryTrusted (rules : List TrustRule) (cwd : String) :
    Option Bool :=
  if (trustedPathsOf rules).any (fun tp => trustedMatch (posixNormalize cwd) tp) = true then
    some true
  else if (untrustedPathsOf rules).any
      (fun up => posixNormalize cwd == posixNormalize up) = true then
    some false
  else none

/-- The rules getter of LoadedTrustedFolders: the JavaScript spread
merge of the user configuration first and the system configuration
second, so the system value wins on a shared key; the result keeps the
user keys in order, then the system keys not present in the user file. -/
def mergedRules (user system : List (String × TrustLevel)) : List TrustRule :=
  user.map (fun q => { path := q.1, trustLevel := (system.lookup q.1).getD q.2 }) ++
    (system.filter fun q => (user.lookup q.1).isNone).map
      (fun q => { path := q.1, trustLevel := q.2 })

/-! ## Claim-side mode predicates (section 4.4 step 4 as the claims word it) -/

/-- Default-allow rule: permitted unless blocked, or unless a
non-wildcard allowlist is configured that the segment fails to match. -/
def segPermittedDefaultAllow (policy : CommandPolicy) (seg : String) : Prop :=
  segBlocked policy seg = false ∧
    ((isWildcard policy.coreTools = false ∧ entryPatterns policy.coreTools ≠ []) →
      (entryPatterns policy.coreTools).any (fun p => matchesEntry p seg) = true)

/-- Default-deny rule: permitted only if not blocked and either matching
the global allowlist or listed verbatim on the session allowlist. -/
def segPermittedDefaultDeny (policy : CommandPolicy) (sal : List String)
    (seg : String) : Prop :=
  segBlocked policy seg = false ∧
    (isWildcard policy.coreTools = true ∨
      (entryPatterns policy.coreTools).any (fun p => matchesEntry p seg) = true ∨
      seg ∈ sal)

/-! ## Helper lemmas -/

theorem strEmptyAppend (s : String) : "" ++ s = s := rfl

theorem strAppendEmpty (s : String) : s ++ "" = s := by
  apply String.ext
  show s.data ++ [] = s.data
  exact List.append_nil _

theorem mem_dedupAux (x : String) (l : List String) : ∀ seen : List String,
    x ∈ dedupAux l seen ↔ (x ∈ l ∧ x ∉ seen) := by
  induction l with
  | nil => intro seen; simp [dedupAux]
  | cons y ys ih =>
    intro seen
    unfold dedupAux
    by_cases h : y ∈ seen
    · rw [if_pos h, ih seen]
      constructor
      · rintro ⟨h1, h2⟩; exact ⟨List.mem_cons_of_mem _ h1, h2⟩
      · rintro ⟨h1, h2⟩
        rcases List.mem_cons.mp h1 with h3 | h3
        · exact absurd (h3 ▸ h) h2
        · exact ⟨h3, h2⟩
    · rw [if_neg h]
      by_cases hxy : x = y
      · subst hxy
        simp [List.mem_cons_self, h]
      · constructor
        · intro h1
          rcases List.mem_cons.mp h1 with h3 | h3
          · exact absurd h3 hxy
          · have := (ih (y :: seen)).mp h3
            exact ⟨List.mem_cons_of_mem _ this.1,
              fun hx => this.2 (List.mem_cons_of_mem _ hx)⟩
        · rintro ⟨h1, h2⟩
          rcases List.mem_cons.mp h1 with h3 | h3
          · exact absurd h3 hxy
          · refine List.mem_cons_of_mem _ ((ih (y :: seen)).mpr ⟨h3, ?_⟩)
            intro hx
            rcases List.mem_cons.mp hx with h4 | h4
            · exact hxy h4
            · exact h2 h4

theorem mem_dedupKeepFirst (x : String) (l : List String) :
    x ∈ dedupKeepFirst l ↔ x ∈ l := by
  unfold dedupKeepFirst
  rw [mem_dedupAux]
  simp

theorem mem_collectList (f : String → List String) (x : String) (l : List String) :
    x ∈ collectList f l ↔ ∃ c ∈ l, x ∈ f c := by
  induction l with
  | nil => simp [collectList]
  | cons c cs ih =>
    simp [collectList, List.mem_append, ih]

theorem check_substitution_verdict (command : String) (policy : CommandPolicy)
    (session : Option (List String)) (h : hasCommandSubstitution command = true) :
    (checkCommandPermissions command policy session).allAllowed = false ∧
    (checkCommandPermissions command policy session).isHardDenial = true := by
  unfold checkCommandPermissions
  rw [if_pos h]
  exact ⟨rfl, rfl⟩

theorem allAllowed_iff_forall (command : String) (policy : CommandPolicy)
    (session : Option (List String)) (hsub : hasCommandSubstitution command = false) :
    (checkCommandPermissions command policy session).allAllowed = true ↔
      ∀ seg ∈ chainSegments command, segFailure policy session seg = none := by
  unfold checkCommandPermissions
  rw [if_neg (by simp [hsub])]
  cases hf : commandFailures command policy session with
  | nil =>
    have hall : ∀ seg ∈ chainSegments command, segFailure policy session seg = none := by
      unfold commandFailures at hf
      intro seg hseg
      exact Option.map_eq_none'.mp (List.filterMap_eq_nil_iff.mp hf seg hseg)
    exact iff_of_true rfl hall
  | cons f0 rest =>
    have hmem : f0 ∈ commandFailures command policy session := by
      rw [hf]; exact List.mem_cons_self _ _
    unfold commandFailures at hmem
    obtain ⟨seg, hseg, hmap⟩ := List.mem_filterMap.mp hmem
    constructor
    · intro h0; exact absurd h0 (by simp)
    · intro hall
      exfalso
      rw [hall seg hseg] at hmap
      simp at hmap

theorem disallowed_ne_nil (command : String) (policy : CommandPolicy)
    (session : Option (List String))
    (h : (checkCommandPermissions command policy session).allAllowed = false) :
    (checkCommandPermissions command policy session).disallowedCommands ≠ [] := by
  unfold checkCommandPermissions at h ⊢
  by_cases hs : hasCommandSubstitution command = true
  · rw [if_pos hs]; simp
  · rw [if_neg hs] at h ⊢
    cases hf : commandFailures command policy session with
    | nil => rw [hf] at h; simp at h
    | cons f0 rest =>
      simp [dedupKeepFirst, dedupAux]

theorem segFailure_of_blocked (policy : CommandPolicy) (session : Option (List String))
    (seg : String) (h : segBlocked policy seg = true) :
    ∃ r, segFailure policy session seg = some (SegFailure.blocked r) := by
  unfold segBlocked at h
  unfold segFailure
  by_cases h1 : isWildcard policy.excludeTools = true
  · rw [if_pos h1]; exact ⟨_, rfl⟩
  · have h2 : hasBlockEntry policy seg = true := by
      rcases Bool.or_eq_true_iff.mp h with h3 | h3
      · exact absurd h3 h1
      · exact h3
    rw [if_neg h1, if_pos h2]
    exact ⟨_, rfl⟩

theorem segFailure_none_defaultAllow (policy : CommandPolicy) (seg : String) :
    segFailure policy none seg = none ↔ segPermittedDefaultAllow policy seg := by
  unfold segFailure segPermittedDefaultAllow segBlocked
  by_cases h1 : isWildcard policy.excludeTools = true
  · simp [h1]
  · by_cases h2 : hasBlockEntry policy seg = true
    · simp [h1, h2]
    · rw [if_neg h1, if_neg h2]
      rw [Bool.not_eq_true] at h1 h2
      by_cases h3 : (isWildcard policy.coreTools = true ∨ entryPatterns policy.coreTools = [] ∨
          (entryPatterns policy.coreTools).any (fun p => matchesEntry p seg) = true)
      · rw [if_pos h3]
        simp only [h1, h2, Bool.or_self, true_and]
        constructor
        · rintro - ⟨hw, hp⟩
          rcases h3 with h4 | h4 | h4
          · exact absurd h4 (by simp [hw])
          · exact absurd h4 hp
          · exact h4
        · intro _; trivial
      · rw [if_neg h3]
        push_neg at h3
        obtain ⟨hw, hp, ha⟩ := h3
        constructor
        · intro h0; exact absurd h0 (by simp)
        · rintro ⟨-, himp⟩
          exact absurd (himp ⟨by simp [Bool.not_eq_true] at hw ⊢; exact hw, hp⟩) ha

theorem segFailure_none_defaultDeny (policy : CommandPolicy) (sal : List String)
    (seg : String) :
    segFailure policy (some sal) seg = none ↔ segPermittedDefaultDeny policy sal seg := by
  unfold segFailure segPermittedDefaultDeny segBlocked
  dsimp only
  by_cases h1 : isWildcard policy.excludeTools = true
  · simp [h1]
  · by_cases h2 : hasBlockEntry policy seg = true
    · simp [h1, h2]
    · rw [if_neg h1, if_neg h2]
      rw [Bool.not_eq_true] at h1 h2
      by_cases h3 : (isWildcard policy.coreTools = true ∨
          (entryPatterns policy.coreTools).any (fun p => matchesEntry p seg) = true ∨
          seg ∈ sal)
      · rw [if_pos h3]
        simp only [h1, h2, Bool.or_self]
        exact iff_of_true trivial ⟨trivial, h3⟩
      · rw [if_neg h3]
        constructor
        · intro h0; exact absurd h0 (by simp)
        · rintro ⟨-, hor⟩; exact absurd hor h3

theorem process_general (prompt args : String) (policy : CommandPolicy)
    (session : List String) (escapeFn : String → String)
    (exec : String → ExecutionResult) (parts : List TPart)
    (htrig : containsTrigger prompt.data = true)
    (hparse : scanAux prompt.data .outside [] [] = some parts) :
    process prompt args true policy session escapeFn exec =
      processValidated policy session (resolveParts parts args (escapeFn args)) exec := by
  unfold process
  rw [if_pos htrig, if_pos rfl, hparse]

theorem lookup_eq_of_mem_nodup (k : String) (v lv : TrustLevel) :
    ∀ l : List (String × TrustLevel), (l.map Prod.fst).Nodup →
      l.lookup k = some lv → (k, v) ∈ l → v = lv := by
  intro l
  induction l with
  | nil => intro _ _ hm; simp at hm
  | cons q qs ih =>
    intro hnd hl hm
    rw [List.map_cons, List.nodup_cons] at hnd
    rcases List.mem_cons.mp hm with h | h
    · have hq : q.1 = k := by rw [← h]
      unfold List.lookup at hl
      rw [hq] at hl
      simp at hl
      rw [← h] at hl
      exact hl.symm ▸ rfl
    · by_cases hq : q.1 = k
      · exfalso
        apply hnd.1
        rw [hq]
        exact List.mem_map.mpr ⟨(k, v), h, rfl⟩
      · unfold List.lookup at hl
        have : (k == q.1) = false := by
          simp [beq_iff_eq]
          exact fun he => hq he.symm
        rw [this] at hl
        exact ih hnd.2 hl h

theorem processValidated_denials (policy : CommandPolicy) (session : List String)
    (resolved : List TPart) (exec : String → ExecutionResult)
    (hfail : ∃ c ∈ partCommands resolved,
      (checkCommandPermissions c policy (some session)).allAllowed = false) :
    (processValidated policy session resolved exec).executed = [] ∧
    (∃ e, (processValidated policy session resolved exec).result = .err e) ∧
    ((∀ c ∈ partCommands resolved,
        (checkCommandPermissions c policy (some session)).isHardDenial = false) →
      (processValidated policy session resolved exec).result =
        .err (.confirmationRequired
          (softDisallowed (partCommands resolved) policy session))) := by
  obtain ⟨c0, hc0, hfalse0⟩ := hfail
  unfold processValidated
  cases hfd : firstHardDenial (partCommands resolved) policy session with
  | some cr =>
    refine ⟨rfl, ⟨_, rfl⟩, ?_⟩
    intro hsoft
    exfalso
    obtain ⟨c, hc, hsome⟩ := List.exists_of_findSome?_eq_some hfd
    by_cases hcond : ((checkCommandPermissions c policy (some session)).allAllowed = false ∧
        (checkCommandPermissions c policy (some session)).isHardDenial = true)
    · exact absurd hcond.2 (by simp [hsoft c hc])
    · rw [if_neg hcond] at hsome
      exact Option.noConfusion hsome
  | none =>
    have hne : softDisallowed (partCommands resolved) policy session ≠ [] := by
      have hd := disallowed_ne_nil c0 policy (some session) hfalse0
      obtain ⟨d, hdm⟩ := List.exists_mem_of_ne_nil _ hd
      have hin : d ∈ softDisallowed (partCommands resolved) policy session := by
        unfold softDisallowed dedupKeepFirst
        rw [mem_dedupAux]
        refine ⟨?_, by simp⟩
        rw [mem_collectList]
        exact ⟨c0, hc0, by rw [if_neg (by simp [hfalse0])]; exact hdm⟩
      exact List.ne_nil_of_mem hin
    rw [if_neg hne]
    exact ⟨rfl, ⟨_, rfl⟩, fun _ => rfl⟩

/-! ## Claim theorems -/

/-- C2: a command holding a substitution construct outside single quotes
is hard-denied whatever the allowlist, blocklist or session allowlist;
the same construct only inside single quotes does not by itself deny:
the single-quoted example passes under an allowlist admitting echo. -/
theorem substitution_hard_denial :
    (∀ (command : String) (policy : CommandPolicy) (session : Option (List String)),
      hasCommandSubstitution command = true →
      (checkCommandPermissions command policy session).allAllowed = false ∧
      (checkCommandPermissions command policy session).isHardDenial = true) ∧
    (checkCommandPermissions "echo \x27$(pwd)\x27" ⟨["ShellTool(echo)"], []⟩
      none).allAllowed = true := by
  constructor
  · intro command policy session h
    exact check_substitution_verdict command policy session h
  · decide

/-- Witness for the substitution claim at a concrete command. -/
theorem substitution_hard_denial_w :
    hasCommandSubstitution "echo $(rm -rf /)" = true ∧
    (checkCommandPermissions "echo $(rm -rf /)" ⟨["ShellTool"], []⟩ none).allAllowed = false ∧
    (checkCommandPermissions "echo $(rm -rf /)" ⟨["ShellTool"], []⟩ none).isHardDenial = true := by
  refine ⟨by decide, ?_, ?_⟩
  · exact (substitution_hard_denial.1 "echo $(rm -rf /)" ⟨["ShellTool"], []⟩ none (by decide)).1
  · exact (substitution_hard_denial.1 "echo $(rm -rf /)" ⟨["ShellTool"], []⟩ none (by decide)).2

/-- C3: without a session allowlist the evaluator is default-allow (a
segment passes unless blocked or unless a non-wildcard allowlist exists
that it misses); with one it is default-deny (a segment passes only when
not blocked and either on the global allowlist or verbatim on the
session allowlist). -/
theorem permission_mode_selection (command : String) (policy : CommandPolicy)
    (sal : List String) (hsub : hasCommandSubstitution command = false) :
    ((checkCommandPermissions command policy none).allAllowed = true ↔
      ∀ seg ∈ chainSegments command, segPermittedDefaultAllow policy seg) ∧
    ((checkCommandPermissions command policy (some sal)).allAllowed = true ↔
      ∀ seg ∈ chainSegments command, segPermittedDefaultDeny policy sal seg) := by
  constructor
  · rw [allAllowed_iff_forall command policy none hsub]
    exact ⟨fun h seg hs => (segFailure_none_defaultAllow policy seg).mp (h seg hs),
      fun h seg hs => (segFailure_none_defaultAllow policy seg).mpr (h seg hs)⟩
  · rw [allAllowed_iff_forall command policy (some sal) hsub]
    exact ⟨fun h seg hs => (segFailure_none_defaultDeny policy sal seg).mp (h seg hs),
      fun h seg hs => (segFailure_none_defaultDeny policy sal seg).mpr (h seg hs)⟩

/-- Witness for the mode-selection claim at a concrete command. -/
theorem permission_mode_selection_w :
    hasCommandSubstitution "ls -l" = false ∧
    ((checkCommandPermissions "ls -l" ⟨[], []⟩ none).allAllowed = true ↔
      ∀ seg ∈ chainSegments "ls -l", segPermittedDefaultAllow ⟨[], []⟩ seg) :=
  ⟨by decide, (permission_mode_selection "ls -l" ⟨[], []⟩ [] (by decide)).1⟩

/-- C4: a command with a segment matching the blocklist (or a wildcard
block) is denied hard, for every policy and session allowlist, so in
particular even when wildcard-allowed or session-allowlisted. -/
theorem blocklist_overrides_allowlist (command : String) (policy : CommandPolicy)
    (session : Option (List String))
    (hblocked : ∃ seg ∈ chainSegments command, segBlocked policy seg = true) :
    (checkCommandPermissions command policy session).allAllowed = false ∧
    (checkCommandPermissions command policy session).isHardDenial = true := by
  obtain ⟨seg, hseg, hb⟩ := hblocked
  by_cases hs : hasCommandSubstitution command = true
  · exact check_substitution_verdict command policy session hs
  · obtain ⟨r, hr⟩ := segFailure_of_blocked policy session seg hb
    have hmem : (seg, SegFailure.blocked r) ∈ commandFailures command policy session := by
      unfold commandFailures
      exact List.mem_filterMap.mpr ⟨seg, hseg, by rw [hr]; rfl⟩
    unfold checkCommandPermissions
    rw [if_neg hs]
    cases hf : commandFailures command policy session with
    | nil => rw [hf] at hmem; exact absurd hmem (by simp)
    | cons f0 rest =>
      rw [hf] at hmem
      exact ⟨rfl, List.any_eq_true.mpr ⟨(seg, SegFailure.blocked r), hmem, rfl⟩⟩

/-- Witness: a wildcard-allowed, session-allowlisted command that is
also specifically blocked is hard-denied. -/
theorem blocklist_overrides_allowlist_w :
    (checkCommandPermissions "rm -rf /" ⟨["ShellTool"], ["ShellTool(rm -rf /)"]⟩
      (some ["rm -rf /"])).allAllowed = false ∧
    (checkCommandPermissions "rm -rf /" ⟨["ShellTool"], ["ShellTool(rm -rf /)"]⟩
      (some ["rm -rf /"])).isHardDenial = true :=
  blocklist_overrides_allowlist "rm -rf /" ⟨["ShellTool"], ["ShellTool(rm -rf /)"]⟩
    (some ["rm -rf /"]) ⟨"rm -rf /", by decide, by decide⟩

/-- C5: a template without the injection trigger resolves by one raw
substitution of the placeholder, with no gateway call and no escaper
invocation. -/
theorem process_fast_path (prompt args : String) (hasConfig : Bool)
    (policy : CommandPolicy) (session : List String) (escapeFn : String → String)
    (exec : String → ExecutionResult)
    (h : containsTrigger prompt.data = false) :
    process prompt args hasConfig policy session escapeFn exec =
      ⟨.ok (replaceArgs prompt args), [], 0⟩ := by
  unfold process
  rw [if_neg (by simp [h])]

/-- Witness for the fast path at the repository's own test template. -/
theorem process_fast_path_w :
    containsTrigger "The user said: \x7b\x7bargs\x7d\x7d".data = false ∧
    process "The user said: \x7b\x7bargs\x7d\x7d" "user input" true ⟨[], []⟩ [] id
      (fun _ => ⟨"", some 0, none, false, false⟩) =
      ⟨.ok "The user said: user input", [], 0⟩ := by
  refine ⟨by decide, ?_⟩
  rw [process_fast_path "The user said: \x7b\x7bargs\x7d\x7d" "user input" true ⟨[], []⟩ []
    id (fun _ => ⟨"", some 0, none, false, false⟩) (by decide)]
  decide

/-- C6: a template whose injection span never closes fails with the
unclosed-injection parse error and executes nothing. -/
theorem process_unclosed_injection (prompt args : String) (policy : CommandPolicy)
    (session : List String) (escapeFn : String → String)
    (exec : String → ExecutionResult)
    (htrig : containsTrigger prompt.data = true)
    (hun : scanAux prompt.data .outside [] [] = none) :
    process prompt args true policy session escapeFn exec =
      ⟨.err .parseError, [], 1⟩ := by
  unfold process
  rw [if_pos htrig, if_pos rfl, hun]

/-- Witness for the unclosed-injection claim at the repository's own
broken templates. -/
theorem process_unclosed_injection_w :
    process "This prompt is broken: !\x7bls -l" "" true ⟨[], []⟩ [] id
      (fun _ => ⟨"", some 0, none, false, false⟩) = ⟨.err .parseError, [], 1⟩ ∧
    process "Broken: !\x7becho \x7ba\x7d" "" true ⟨[], []⟩ [] id
      (fun _ => ⟨"", some 0, none, false, false⟩) = ⟨.err .parseError, [], 1⟩ :=
  ⟨process_unclosed_injection "This prompt is broken: !\x7bls -l" "" ⟨[], []⟩ [] id
      (fun _ => ⟨"", some 0, none, false, false⟩) (by decide) (by decide),
    process_unclosed_injection "Broken: !\x7becho \x7ba\x7d" "" ⟨[], []⟩ [] id
      (fun _ => ⟨"", some 0, none, false, false⟩) (by decide) (by decide)⟩

/-- C7: a spawn error with aborted resolves the span as the output
followed by the aborted marker; a spawn error without abort fails the
whole call with the execution failure, returning no text. -/
theorem spawn_error_behavior (r : ExecutionResult)
    (herr : r.error = true) (hexit : r.exitCode = none) (hsig : r.signal = none) :
    (r.aborted = true → composeResult r = some (r.output ++ "\n[Shell command aborted]")) ∧
    (r.aborted = false → composeResult r = none) ∧
    (r.aborted = true →
      process "!\x7bcommand\x7d" "" true ⟨[], []⟩ ["command"] id (fun _ => r) =
        ⟨.ok (r.output ++ "\n[Shell command aborted]"), ["command"], 1⟩) ∧
    (r.aborted = false →
      process "!\x7bcommand\x7d" "" true ⟨[], []⟩ ["command"] id (fun _ => r) =
        ⟨.err (.executionFailure "command"), ["command"], 1⟩) := by
  obtain ⟨out, ec, sg, er, ab⟩ := r
  simp only at herr hexit hsig
  subst herr hexit hsig
  have hcomp1 : ab = true →
      composeResult ⟨out, none, none, true, ab⟩ =
        some (out ++ "\n[Shell command aborted]") := by
    intro h; subst h; simp [composeResult]
  have hcomp2 : ab = false → composeResult ⟨out, none, none, true, ab⟩ = none := by
    intro h; subst h; simp [composeResult]
  have hgen := process_general "!\x7bcommand\x7d" "" ⟨[], []⟩ ["command"] id
    (fun _ => (⟨out, none, none, true, ab⟩ : ExecutionResult))
    [TPart.text "", TPart.span "command", TPart.text ""] (by decide) (by decide)
  have hres : resolveParts [TPart.text "", TPart.span "command", TPart.text ""] "" (id "") =
      [TPart.text "", TPart.span "command", TPart.text ""] := by decide
  rw [hres] at hgen
  have hpc : partCommands [TPart.text "", TPart.span "command", TPart.text ""] =
      ["command"] := by decide
  refine ⟨hcomp1, hcomp2, ?_, ?_⟩
  · intro h
    rw [hgen]
    unfold processValidated
    rw [hpc, show firstHardDenial ["command"] ⟨[], []⟩ ["command"] = none from by decide,
      if_pos (show softDisallowed ["command"] ⟨[], []⟩ ["command"] = [] from by decide)]
    simp only [runPartsAux, strAppendEmpty]
    rw [if_neg (show ¬ ("command" = "") from by decide)]
    simp [hcomp1 h, runPartsAux, strAppendEmpty, strEmptyAppend]
  · intro h
    rw [hgen]
    unfold processValidated
    rw [hpc, show firstHardDenial ["command"] ⟨[], []⟩ ["command"] = none from by decide,
      if_pos (show softDisallowed ["command"] ⟨[], []⟩ ["command"] = [] from by decide)]
    simp only [runPartsAux, strAppendEmpty]
    rw [if_neg (show ¬ ("command" = "") from by decide)]
    simp [hcomp2 h, runPartsAux, strAppendEmpty, strEmptyAppend]

/-- Witness for the spawn-error claim at the repository's own test
inputs. -/
theorem spawn_error_behavior_w :
    process "!\x7bcommand\x7d" "" true ⟨[], []⟩ ["command"] id
      (fun _ => ⟨"partial output", none, none, true, true⟩) =
      ⟨.ok "partial output\n[Shell command aborted]", ["command"], 1⟩ ∧
    process "!\x7bcommand\x7d" "" true ⟨[], []⟩ ["command"] id
      (fun _ => ⟨"", none, none, true, false⟩) =
      ⟨.err (.executionFailure "command"), ["command"], 1⟩ :=
  ⟨(spawn_error_behavior ⟨"partial output", none, none, true, true⟩ rfl rfl rfl).2.2.1 rfl,
    (spawn_error_behavior ⟨"", none, none, true, false⟩ rfl rfl rfl).2.2.2 rfl⟩

/-- C8: the escaper returns the empty string for empty input without
invoking the quoting routine on any platform, and on the Windows-like
platform wraps in double quotes doubling embedded ones, again without
the quoting routine. -/
theorem escape_empty_and_windows :
    (∀ (p : OsKind) (quoteFn : String → String), escapeShellArg "" p quoteFn = ("", 0)) ∧
    (∀ quoteFn : String → String,
      escapeShellArg "He said \"Hello\"" .win32 quoteFn =
        ("\"He said \"\"Hello\"\"\"", 0)) := by
  constructor
  · intro p quoteFn; rfl
  · intro quoteFn
    unfold escapeShellArg
    rw [if_neg (by decide)]
    show (winEscape "He said \"Hello\"", 0) = ("\"He said \"\"Hello\"\"\"", 0)
    decide

/-- C9: the tokenizer's documented examples, including quote-protected
operators and directory-prefix stripping. -/
theorem command_roots_examples :
    getCommandRoots "a;b|c&&d||e&f" = ["a", "b", "c", "d", "e", "f"] ∧
    getCommandRoots "" = [] ∧
    getCommandRoots "/usr/local/bin/node script.js" = ["node"] ∧
    getCommandRoots "ls -l" = ["ls"] ∧
    getCommandRoots "echo \"hello\" && git commit -m \"feat\"" = ["echo", "git"] ∧
    getCommandRoots "echo \x27a;b|c\x27 && ls" = ["echo", "ls"] :=
  ⟨by decide, by decide, by decide, by decide, by decide, by decide⟩

/-- C1 counterexample: in a template whose first span is soft-denied and
whose second span is blocked, a failing span's verdict names the command
a, yet the raised condition is the hard denial for b alone, so the
condition does not carry the disallowed strings of every failing span;
nothing executes. -/
theorem hard_denial_drops_soft_commands_cex :
    (checkCommandPermissions "a" ⟨[], ["ShellTool(b)"]⟩ (some [])).allAllowed = false ∧
    (checkCommandPermissions "a" ⟨[], ["ShellTool(b)"]⟩ (some [])).disallowedCommands = ["a"] ∧
    (process "!\x7ba\x7d !\x7bb\x7d" "" true ⟨[], ["ShellTool(b)"]⟩ [] id
        (fun _ => ⟨"", some 0, none, false, false⟩)).executed = [] ∧
    (process "!\x7ba\x7d !\x7bb\x7d" "" true ⟨[], ["ShellTool(b)"]⟩ [] id
        (fun _ => ⟨"", some 0, none, false, false⟩)).result =
      .err (.hardDenial "b" (some "Command \x27b\x27 is blocked by configuration")) :=
  ⟨by decide, by decide, by decide, by decide⟩

/-- C1 as amended: whenever some span's resolved command fails
evaluation, nothing reaches the Execution Gateway and the call raises a
condition; when every failing span is a soft denial, that condition is
the aggregated confirmation carrying the disallowed commands of every
failing span of the whole template (a hard denial instead fails
immediately naming the offending command). -/
theorem process_denial_aggregation (prompt args : String) (policy : CommandPolicy)
    (session : List String) (escapeFn : String → String)
    (exec : String → ExecutionResult) (parts : List TPart)
    (htrig : containsTrigger prompt.data = true)
    (hparse : scanAux prompt.data .outside [] [] = some parts)
    (hfail : ∃ c ∈ partCommands (resolveParts parts args (escapeFn args)),
      (checkCommandPermissions c policy (some session)).allAllowed = false) :
    (process prompt args true policy session escapeFn exec).executed = [] ∧
    (∃ e, (process prompt args true policy session escapeFn exec).result = .err e) ∧
    ((∀ c ∈ partCommands (resolveParts parts args (escapeFn args)),
        (checkCommandPermissions c policy (some session)).isHardDenial = false) →
      (process prompt args true policy session escapeFn exec).result =
        .err (.confirmationRequired
          (softDisallowed (partCommands (resolveParts parts args (escapeFn args)))
            policy session))) ∧
    (∀ c ∈ partCommands (resolveParts parts args (escapeFn args)),
      (checkCommandPermissions c policy (some session)).allAllowed = false →
      ∀ d ∈ (checkCommandPermissions c policy (some session)).disallowedCommands,
        d ∈ softDisallowed (partCommands (resolveParts parts args (escapeFn args)))
          policy session) := by
  rw [process_general prompt args policy session escapeFn exec parts htrig hparse]
  have hmain := processValidated_denials policy session
    (resolveParts parts args (escapeFn args)) exec hfail
  refine ⟨hmain.1, hmain.2.1, hmain.2.2, ?_⟩
  intro c hc hfalse d hd
  unfold softDisallowed dedupKeepFirst
  rw [mem_dedupAux]
  refine ⟨?_, by simp⟩
  rw [mem_collectList]
  exact ⟨c, hc, by rw [if_neg (by simp [hfalse])]; exact hd⟩

/-- Witness for the amended aggregation claim at the repository's own
two-span test template: both spans are soft-denied and the raised
condition carries both commands. -/
theorem process_denial_aggregation_w :
    (process "!\x7bcmd1\x7d and !\x7bcmd2\x7d" "" true ⟨[], []⟩ [] id
        (fun _ => ⟨"", some 0, none, false, false⟩)).executed = [] ∧
    (process "!\x7bcmd1\x7d and !\x7bcmd2\x7d" "" true ⟨[], []⟩ [] id
        (fun _ => ⟨"", some 0, none, false, false⟩)).result =
      .err (.confirmationRequired ["cmd1", "cmd2"]) := by
  have h := process_denial_aggregation "!\x7bcmd1\x7d and !\x7bcmd2\x7d" "" ⟨[], []⟩ [] id
    (fun _ => ⟨"", some 0, none, false, false⟩)
    [TPart.text "", TPart.span "cmd1", TPart.text " and ", TPart.span "cmd2", TPart.text ""]
    (by decide) (by decide) ⟨"cmd1", by decide, by decide⟩
  refine ⟨h.1, ?_⟩
  rw [h.2.2.1 (by decide)]
  decide

/-- C10: the trusted-folder resolver tests every trusted path before any
do-not-trust rule, so a directory at or under a trusted path resolves
true even when it equals an untrusted path; a directory matching no rule
yields undefined, not false; and a path present in both files takes the
system file's level in the merged rules. -/
theorem trusted_folder_resolution :
    (∀ (rules : List TrustRule) (cwd : String),
      (∃ tp ∈ trustedPathsOf rules, trustedMatch (posixNormalize cwd) tp = true) →
      isCurrentDirectoryTrusted rules cwd = some true) ∧
    (∀ (rules : List TrustRule) (cwd : String),
      (∀ tp ∈ trustedPathsOf rules, trustedMatch (posixNormalize cwd) tp = false) →
      (∀ up ∈ untrustedPathsOf rules, posixNormalize cwd ≠ posixNormalize up) →
      isCurrentDirectoryTrusted rules cwd = none) ∧
    (∀ (user system : List (String × TrustLevel)) (k : String) (lv : TrustLevel),
      (system.map Prod.fst).Nodup →
      List.lookup k system = some lv →
      ∀ r ∈ mergedRules user system, r.path = k → r.trustLevel = lv) := by
  refine ⟨?_, ?_, ?_⟩
  · rintro rules cwd ⟨tp, htp, hm⟩
    unfold isCurrentDirectoryTrusted
    rw [if_pos (List.any_eq_true.mpr ⟨tp, htp, hm⟩)]
  · intro rules cwd htr hun
    have h1 : ¬ ((trustedPathsOf rules).any
        (fun tp => trustedMatch (posixNormalize cwd) tp) = true) := by
      intro hany
      obtain ⟨tp, htp, hm⟩ := List.any_eq_true.mp hany
      rw [htr tp htp] at hm
      exact Bool.noConfusion hm
    have h2 : ¬ ((untrustedPathsOf rules).any
        (fun up => posixNormalize cwd == posixNormalize up) = true) := by
      intro hany
      obtain ⟨up, hup, hm⟩ := List.any_eq_true.mp hany
      exact hun up hup (beq_iff_eq.mp hm)
    unfold isCurrentDirectoryTrusted
    rw [if_neg h1, if_neg h2]
  · intro user system k lv hnd hl r hr hpath
    unfold mergedRules at hr
    rcases List.mem_append.mp hr with h | h
    · obtain ⟨q, hq, heq⟩ := List.mem_map.mp h
      have hq1 : q.1 = k := by rw [← heq] at hpath; exact hpath
      rw [← heq]
      show (List.lookup q.1 system).getD q.2 = lv
      rw [hq1, hl]
      rfl
    · obtain ⟨q, hq, heq⟩ := List.mem_map.mp h
      rw [List.mem_filter] at hq
      have hq1 : q.1 = k := by rw [← heq] at hpath; exact hpath
      have hmem : (k, q.2) ∈ system := by rw [← hq1]; exact hq.1
      have hv := lookup_eq_of_mem_nodup k q.2 lv system hnd hl hmem
      rw [← heq]
      exact hv

/-- Witness: the repository's trust-over-distrust test case. -/
theorem trusted_folder_resolution_w :
    isCurrentDirectoryTrusted
      [⟨"/home/user/projectA", .TRUST_FOLDER⟩,
        ⟨"/home/user/projectA/untrusted", .DO_NOT_TRUST⟩]
      "/home/user/projectA/untrusted" = some true :=
  trusted_folder_resolution.1 _ _ ⟨"/home/user/projectA", by decide, by decide⟩
